import Mathlib

/-!
Shallow embedding of the etherz asynchronous networking core
(src/include/async/poll.hpp, src/include/async/event_loop.hpp,
src/include/async/async_socket.hpp, src/include/security/tls_socket.hpp),
together with theorems settling the specification claims about the
Reactor registration set, the dispatch cycle, the one-shot async socket
operations, and the TLS handshake / record-framing engine.

Platform effects (the OS wait call, raw socket send/recv, and the
secure-channel provider operations) are modelled as explicit oracle
parameters; everything the C++ code computes from their results is
translated directly.
-/

set_option autoImplicit false

namespace Etherz

/-- Socket descriptor (net::impl::socket_t); an `Int` handle. -/
abbrev Fd := Int

/-- net::impl::invalid_socket sentinel (POSIX value -1). -/
def invalid_socket : Fd := -1

/-- async::PollEvent — a uint8 bitmask with four flags, modelled as one
Bool per bit (ReadReady, WriteReady, Error, HangUp). -/
structure PollEvent where
  readReady : Bool
  writeReady : Bool
  error : Bool
  hangUp : Bool
deriving DecidableEq, Repr

/-- PollEvent::None — the empty mask. -/
def PollEvent.noneE : PollEvent := ⟨false, false, false, false⟩

/-- Bitwise and of two masks (operator& on the uint8 representation). -/
def PollEvent.and (a b : PollEvent) : PollEvent :=
  ⟨a.readReady && b.readReady, a.writeReady && b.writeReady,
   a.error && b.error, a.hangUp && b.hangUp⟩

/-- Bitwise or of two masks (operator| on the uint8 representation). -/
def PollEvent.or (a b : PollEvent) : PollEvent :=
  ⟨a.readReady || b.readReady, a.writeReady || b.writeReady,
   a.error || b.error, a.hangUp || b.hangUp⟩

/-- async::has_event: (flags & test) != 0. -/
def hasEvent (flags test : PollEvent) : Bool :=
  decide (PollEvent.and flags test ≠ PollEvent.noneE)

/-- The single-flag masks used by AsyncSocket registrations. -/
def PollEvent.readOnly : PollEvent := ⟨true, false, false, false⟩

def PollEvent.writeOnly : PollEvent := ⟨false, true, false, false⟩

def PollEvent.errOnly : PollEvent := ⟨false, false, true, false⟩

/-- core::Error — the closed error taxonomy (the constructors the async
and TLS components use). -/
inductive Error where
  | None
  | WouldBlock
  | ConnectFailed
  | AcceptFailed
  | SendFailed
  | ReceiveFailed
  | HandshakeFailed
  | SocketClosed
  | Timeout
  | Unknown
deriving DecidableEq, Repr

/-- core::is_error. -/
def is_error (e : Error) : Bool := decide (e ≠ Error.None)

/-- core::is_ok. -/
def is_ok (e : Error) : Bool := decide (e = Error.None)

/-- EventLoop::Registration: (fd, interest, callback).  Callbacks are kept
abstract: `C` is an identifier for a callback closure and an `Interp`
(below) gives its effect on the loop; `Option C` models a possibly-empty
std::function. -/
structure Registration (C : Type) where
  fd : Fd
  interest : PollEvent
  callback : Option C

/-- The descriptors currently registered, in registration order. -/
def fdsOf {C : Type} (regs : List (Registration C)) : List Fd :=
  regs.map Registration.fd

/-- EventLoop::add — walk the registration vector; the first entry with a
matching fd has its interest and callback replaced in place; otherwise
the new registration is appended at the end. -/
def EventLoop.add {C : Type} (regs : List (Registration C))
    (fd : Fd) (interest : PollEvent) (cb : Option C) : List (Registration C) :=
  match regs with
  | [] => [⟨fd, interest, cb⟩]
  | r :: rest =>
    if r.fd = fd then { r with interest := interest, callback := cb } :: rest
    else r :: EventLoop.add rest fd interest cb

/-- EventLoop::remove — std::erase_if removing every registration whose
fd matches. -/
def EventLoop.remove {C : Type} (regs : List (Registration C)) (fd : Fd) :
    List (Registration C) :=
  regs.filter (fun r => r.fd ≠ fd)

@[simp] theorem fdsOf_nil {C : Type} : fdsOf ([] : List (Registration C)) = [] := rfl

@[simp] theorem fdsOf_cons {C : Type} (r : Registration C) (rs : List (Registration C)) :
    fdsOf (r :: rs) = r.fd :: fdsOf rs := rfl

theorem fdsOf_remove {C : Type} (regs : List (Registration C)) (fd : Fd) :
    fdsOf (EventLoop.remove regs fd) = (fdsOf regs).filter (fun g => g ≠ fd) := by
  induction regs with
  | nil => rfl
  | cons r rs ih =>
    by_cases h : r.fd = fd <;>
      simp [EventLoop.remove, List.filter, h, fdsOf] at * <;>
      simpa [EventLoop.remove, fdsOf] using ih

theorem not_mem_fdsOf_remove_self {C : Type} (regs : List (Registration C)) (fd : Fd) :
    fd ∉ fdsOf (EventLoop.remove regs fd) := by
  rw [fdsOf_remove]
  intro h
  have := List.of_mem_filter h
  simp at this

theorem fdsOf_remove_subset {C : Type} (regs : List (Registration C)) (fd g : Fd) :
    g ∈ fdsOf (EventLoop.remove regs fd) → g ∈ fdsOf regs := by
  rw [fdsOf_remove]
  exact fun h => List.mem_of_mem_filter h

theorem remove_absent {C : Type} (regs : List (Registration C)) (fd : Fd)
    (h : fd ∉ fdsOf regs) : EventLoop.remove regs fd = regs := by
  apply List.filter_eq_self.mpr
  intro r hr
  simp only [decide_eq_true_eq]
  intro hc
  exact h (hc ▸ List.mem_map_of_mem Registration.fd hr)

theorem fdsOf_add_mem {C : Type} (regs : List (Registration C))
    (fd : Fd) (i : PollEvent) (cb : Option C) (h : fd ∈ fdsOf regs) :
    fdsOf (EventLoop.add regs fd i cb) = fdsOf regs := by
  induction regs with
  | nil => simp [fdsOf] at h
  | cons r rs ih =>
    rw [fdsOf_cons] at h
    by_cases hr : r.fd = fd
    · simp [EventLoop.add, hr]
    · rcases List.mem_cons.mp h with h | h
      · exact absurd h.symm hr
      · simp only [EventLoop.add, if_neg hr, fdsOf_cons]
        rw [ih h]

theorem fdsOf_add_not_mem {C : Type} (regs : List (Registration C))
    (fd : Fd) (i : PollEvent) (cb : Option C) (h : fd ∉ fdsOf regs) :
    fdsOf (EventLoop.add regs fd i cb) = fdsOf regs ++ [fd] := by
  induction regs with
  | nil => simp [EventLoop.add, fdsOf]
  | cons r rs ih =>
    rw [fdsOf_cons] at h
    have h1 : ¬ r.fd = fd := fun hc => h (hc ▸ List.mem_cons_self _ _)
    have h2 : fd ∉ fdsOf rs := fun hc => h (List.mem_cons_of_mem _ hc)
    simp only [EventLoop.add, if_neg h1, fdsOf_cons, ih h2]
    simp

theorem length_add_mem {C : Type} (regs : List (Registration C))
    (fd : Fd) (i : PollEvent) (cb : Option C) (h : fd ∈ fdsOf regs) :
    (EventLoop.add regs fd i cb).length = regs.length := by
  have := fdsOf_add_mem regs fd i cb h
  have h1 : (fdsOf (EventLoop.add regs fd i cb)).length = (fdsOf regs).length := by rw [this]
  simpa [fdsOf] using h1

theorem length_add_not_mem {C : Type} (regs : List (Registration C))
    (fd : Fd) (i : PollEvent) (cb : Option C) (h : fd ∉ fdsOf regs) :
    (EventLoop.add regs fd i cb).length = regs.length + 1 := by
  have := fdsOf_add_not_mem regs fd i cb h
  have h1 : (fdsOf (EventLoop.add regs fd i cb)).length = (fdsOf regs).length + 1 := by
    rw [this]; simp
  simpa [fdsOf] using h1

theorem nodup_add {C : Type} (regs : List (Registration C))
    (fd : Fd) (i : PollEvent) (cb : Option C) (h : (fdsOf regs).Nodup) :
    (fdsOf (EventLoop.add regs fd i cb)).Nodup := by
  by_cases hm : fd ∈ fdsOf regs
  · rwa [fdsOf_add_mem regs fd i cb hm]
  · rw [fdsOf_add_not_mem regs fd i cb hm]
    refine List.Nodup.append h (List.nodup_singleton fd) ?_
    intro a ha hb
    rw [List.mem_singleton] at hb
    exact hm (hb ▸ ha)

theorem nodup_remove {C : Type} (regs : List (Registration C)) (fd : Fd)
    (h : (fdsOf regs).Nodup) : (fdsOf (EventLoop.remove regs fd)).Nodup := by
  rw [fdsOf_remove]
  exact h.filter _

theorem map_keep_of_ne {C : Type} (rs : List (Registration C))
    (fd : Fd) (i : PollEvent) (cb : Option C) (h : ∀ x ∈ rs, x.fd ≠ fd) :
    rs.map (fun x => if x.fd = fd then (⟨fd, i, cb⟩ : Registration C) else x) = rs := by
  induction rs with
  | nil => rfl
  | cons x xs ih =>
    simp only [List.map_cons, if_neg (h x (List.mem_cons_self _ _)), List.cons.injEq,
      true_and]
    exact ih fun y hy => h y (List.mem_cons_of_mem _ hy)

theorem add_eq_map_of_mem {C : Type} (regs : List (Registration C))
    (fd : Fd) (i : PollEvent) (cb : Option C)
    (hnd : (fdsOf regs).Nodup) (h : fd ∈ fdsOf regs) :
    EventLoop.add regs fd i cb
      = regs.map (fun r => if r.fd = fd then ⟨fd, i, cb⟩ else r) := by
  induction regs with
  | nil => simp [fdsOf] at h
  | cons r rs ih =>
    rw [fdsOf_cons] at h hnd
    have hhead : r.fd ∉ fdsOf rs := (List.nodup_cons.mp hnd).1
    have htail : (fdsOf rs).Nodup := (List.nodup_cons.mp hnd).2
    by_cases hr : r.fd = fd
    · subst hr
      have hnot : ∀ x ∈ rs, x.fd ≠ r.fd := by
        intro x hx hxfd
        exact hhead (hxfd ▸ List.mem_map_of_mem Registration.fd hx)
      simp [EventLoop.add, map_keep_of_ne rs r.fd i cb hnot]
    · rcases List.mem_cons.mp h with h | h
      · exact absurd h.symm hr
      · simp only [EventLoop.add, if_neg hr, List.map_cons, if_neg hr, ih htail h]

theorem filter_add_self {C : Type} (regs : List (Registration C))
    (fd : Fd) (i : PollEvent) (cb : Option C) (hnd : (fdsOf regs).Nodup) :
    (EventLoop.add regs fd i cb).filter (fun r => r.fd = fd)
      = [⟨fd, i, cb⟩] := by
  induction regs with
  | nil => simp [EventLoop.add, List.filter]
  | cons r rs ih =>
    rw [fdsOf_cons] at hnd
    have hhead : r.fd ∉ fdsOf rs := (List.nodup_cons.mp hnd).1
    have htail : (fdsOf rs).Nodup := (List.nodup_cons.mp hnd).2
    by_cases hr : r.fd = fd
    · subst hr
      have hrs : rs.filter (fun x => decide (x.fd = r.fd)) = [] := by
        apply List.filter_eq_nil_iff.mpr
        intro x hx
        simp only [decide_eq_true_eq]
        intro hxfd
        exact hhead (hxfd ▸ List.mem_map_of_mem Registration.fd hx)
      simp [EventLoop.add, List.filter, hrs]
    · simp [EventLoop.add, hr, List.filter, ih htail]

/-- async::PollEntry — ephemeral per-cycle projection of a registration. -/
structure PollEntry where
  fd : Fd
  requested : PollEvent
  returned : PollEvent
deriving DecidableEq, Repr

/-- Result of async::poll: the return value of the wrapper, the entry
collection with returned masks populated, and whether the underlying OS
wait call was invoked at all. -/
structure PollOut where
  result : Int
  entries : List PollEntry
  waited : Bool
deriving Repr

/-- async::poll — the OS wait call is abstracted by `waitResult` (its
return value) and `revents` (the readiness mask each entry index gets
back).  An empty entry collection returns 0 immediately without invoking
the wait call; the returned masks are written back only when the wait
call reports a positive count. -/
def fillReturned (revents : Nat → PollEvent) : Nat → List PollEntry → List PollEntry
  | _, [] => []
  | i, e :: es => { e with returned := revents i } :: fillReturned revents (i + 1) es

def poll (entries : List PollEntry) (waitResult : Int) (revents : Nat → PollEvent) :
    PollOut :=
  if entries.isEmpty then ⟨0, entries, false⟩
  else ⟨waitResult, if 0 < waitResult then fillReturned revents 0 entries else entries, true⟩

/-- An action a callback performs on the live registration set: the two
mutators EventLoop exposes to callbacks. -/
inductive Action (C : Type) where
  | addA (fd : Fd) (interest : PollEvent) (cb : Option C)
  | removeA (fd : Fd)

/-- Effect of one action on the registration set. -/
def applyAction {C : Type} (regs : List (Registration C)) : Action C → List (Registration C)
  | .addA fd i cb => EventLoop.add regs fd i cb
  | .removeA fd => EventLoop.remove regs fd

def applyActions {C : Type} (regs : List (Registration C)) (acts : List (Action C)) :
    List (Registration C) :=
  acts.foldl applyAction regs

/-- Interpretation of callback identifiers: the sequence of add/remove
calls the callback body performs on the loop when invoked with
(fd, returned events).  The user-visible side of a callback is modelled
separately per operation (AsyncSocket below). -/
abbrev Interp (C : Type) := C → Fd → PollEvent → List (Action C)

/-- Output of the dispatch loop inside EventLoop::run_once: the number of
ready entries counted, the log of processed ready entries in dispatch
order (entry fd, returned mask, snapshot callback), and the final live
registration set. -/
structure DispatchOut (C : Type) where
  count : Nat
  log : List (Fd × PollEvent × Option C)
  regs : List (Registration C)

/-- The for-loop of EventLoop::run_once: walks poll entries and snapshot
in lock-step (the C++ condition is i < entries.size && i < snapshot.size),
invoking the snapshot callback of every entry with a non-empty returned
mask against the live registration set. -/
def dispatchLoop {C : Type} (interp : Interp C) :
    List PollEntry → List (Registration C) → List (Registration C) → DispatchOut C
  | [], _, regs => ⟨0, [], regs⟩
  | _ :: _, [], regs => ⟨0, [], regs⟩
  | e :: es, s :: ss, regs =>
    if e.returned = PollEvent.noneE then
      dispatchLoop interp es ss regs
    else
      let regs1 :=
        match s.callback with
        | some c => applyActions regs (interp c e.fd e.returned)
        | none => regs
      let rest := dispatchLoop interp es ss regs1
      ⟨rest.count + 1, (e.fd, e.returned, s.callback) :: rest.log, rest.regs⟩

/-- Result of EventLoop::run_once: dispatched count, dispatch log, the
registration set after the cycle, and whether poll was invoked. -/
structure RunOut (C : Type) where
  dispatched : Nat
  log : List (Fd × PollEvent × Option C)
  finalRegs : List (Registration C)
  polled : Bool

/-- EventLoop::run_once — returns 0 immediately when no registrations
exist; builds the poll entries from the current registrations, invokes
the Poller, returns 0 when its result is non-positive, and otherwise
snapshots the registrations and dispatches ready entries. -/
def EventLoop.run_once {C : Type} (interp : Interp C) (regs : List (Registration C))
    (waitResult : Int) (revents : Nat → PollEvent) : RunOut C :=
  if regs.isEmpty then ⟨0, [], regs, false⟩
  else
    let entries0 := regs.map fun r => PollEntry.mk r.fd r.interest PollEvent.noneE
    let p := poll entries0 waitResult revents
    if p.result ≤ 0 then ⟨0, [], regs, p.waited⟩
    else
      let snapshot := regs
      let d := dispatchLoop interp p.entries snapshot regs
      ⟨d.count, d.log, d.regs, p.waited⟩

/-- Specification-side description of one cycle's dispatch: the ready
entries of the cycle-start registration list, in order, paired with the
readiness mask the Poller reported for their index. -/
def readySpec {C : Type} (revents : Nat → PollEvent) :
    Nat → List (Registration C) → List (Fd × PollEvent × Option C)
  | _, [] => []
  | i, r :: rs =>
    if revents i = PollEvent.noneE then readySpec revents (i + 1) rs
    else (r.fd, revents i, r.callback) :: readySpec revents (i + 1) rs

theorem dispatchLoop_log_spec {C : Type} (interp : Interp C) (revents : Nat → PollEvent) :
    ∀ (rs : List (Registration C)) (i : Nat) (regs : List (Registration C)),
      (dispatchLoop interp
        (fillReturned revents i (rs.map fun r => PollEntry.mk r.fd r.interest PollEvent.noneE))
        rs regs).log = readySpec revents i rs
      ∧ (dispatchLoop interp
        (fillReturned revents i (rs.map fun r => PollEntry.mk r.fd r.interest PollEvent.noneE))
        rs regs).count = (readySpec revents i rs (C := C)).length := by
  intro rs
  induction rs with
  | nil => intro i regs; simp [dispatchLoop, readySpec, fillReturned]
  | cons r rest ih =>
    intro i regs
    by_cases h : revents i = PollEvent.noneE
    · simp only [List.map_cons, fillReturned, dispatchLoop, readySpec, h, if_pos rfl]
      simpa [h] using ih (i + 1) regs
    · simp only [List.map_cons, fillReturned, dispatchLoop, readySpec]
      rw [if_neg h, if_neg h]
      have := ih (i + 1)
        (applyActions regs (match r.callback with
          | some c => interp c r.fd (revents i)
          | none => []))
      constructor
      · simp only [List.length_cons]
        cases hcb : r.callback with
        | none =>
          simpa [hcb] using (ih (i + 1) regs).1
        | some c =>
          simpa [hcb] using (ih (i + 1) (applyActions regs (interp c r.fd (revents i)))).1
      · simp only [List.length_cons]
        cases hcb : r.callback with
        | none =>
          simpa [hcb] using (ih (i + 1) regs).2
        | some c =>
          simpa [hcb] using (ih (i + 1) (applyActions regs (interp c r.fd (revents i)))).2

theorem run_once_log_spec {C : Type} (interp : Interp C) (regs : List (Registration C))
    (waitResult : Int) (revents : Nat → PollEvent)
    (hne : regs ≠ []) (hpos : 0 < waitResult) :
    (EventLoop.run_once interp regs waitResult revents).log = readySpec revents 0 regs
    ∧ (EventLoop.run_once interp regs waitResult revents).dispatched
        = (readySpec revents 0 regs (C := C)).length := by
  have hempty : regs.isEmpty = false := by
    cases regs with
    | nil => exact absurd rfl hne
    | cons r rs => rfl
  have hempty2 :
      (regs.map fun r => PollEntry.mk r.fd r.interest PollEvent.noneE).isEmpty = false := by
    cases regs with
    | nil => exact absurd rfl hne
    | cons r rs => rfl
  have hnotle : ¬ waitResult ≤ 0 := not_le.mpr hpos
  simp only [EventLoop.run_once, poll, hempty, hempty2, Bool.false_eq_true, if_false,
    if_pos hpos, if_neg hnotle]
  exact dispatchLoop_log_spec interp revents regs 0 regs

/-- C1: within one run_once cycle the (descriptor, callback) pairs used
for dispatch are the ones captured at cycle start: for every callback
interpretation (so for arbitrary add/remove behaviour of the callbacks,
including a callback re-registering its own descriptor), the dispatch log
equals the in-order list of ready cycle-start entries — no entry is
skipped, duplicated, or affected by same-cycle mutation. -/
theorem C1_run_once_snapshot_dispatch :
    ∀ (C : Type) (interp : Interp C) (regs : List (Registration C))
      (waitResult : Int) (revents : Nat → PollEvent),
      regs ≠ [] → 0 < waitResult →
      (EventLoop.run_once interp regs waitResult revents).log = readySpec revents 0 regs
      ∧ (EventLoop.run_once interp regs waitResult revents).dispatched
          = (readySpec revents 0 regs (C := C)).length :=
  fun _ interp regs waitResult revents hne hpos =>
    run_once_log_spec interp regs waitResult revents hne hpos

/-- Witness for C1 at a concrete one-registration loop with a callback
that re-registers its own descriptor: it is still dispatched once. -/
theorem C1_run_once_snapshot_dispatch_witness :
    ([⟨5, PollEvent.readOnly, some ()⟩] : List (Registration Unit)) ≠ [] ∧ (0 : Int) < 1
    ∧ (EventLoop.run_once
        (fun _ fd _ => [Action.addA fd PollEvent.readOnly (some ())])
        [⟨5, PollEvent.readOnly, some ()⟩] 1 (fun _ => PollEvent.readOnly)).log
        = readySpec (fun _ => PollEvent.readOnly) 0 [⟨5, PollEvent.readOnly, some ()⟩]
    ∧ (EventLoop.run_once
        (fun _ fd _ => [Action.addA fd PollEvent.readOnly (some ())])
        [⟨5, PollEvent.readOnly, some ()⟩] 1 (fun _ => PollEvent.readOnly)).dispatched
        = (readySpec (fun _ => PollEvent.readOnly) 0
            ([⟨5, PollEvent.readOnly, some ()⟩] : List (Registration Unit))).length := by
  refine ⟨by simp, by norm_num, ?_, ?_⟩
  · exact (C1_run_once_snapshot_dispatch Unit _ _ 1 _ (by simp) (by norm_num)).1
  · exact (C1_run_once_snapshot_dispatch Unit _ _ 1 _ (by simp) (by norm_num)).2

/-- C9: an empty Reactor returns 0 from run_once without invoking the
Poller; a non-positive Poller result is swallowed as zero dispatches with
the registration set untouched (the poll call did happen); and the Poller
itself returns 0 for an empty entry collection without invoking the
underlying wait call. -/
theorem C9_run_once_empty_and_negative_poll :
    ∀ (C : Type) (interp : Interp C) (regs : List (Registration C))
      (w : Int) (rv : Nat → PollEvent),
      (EventLoop.run_once interp ([] : List (Registration C)) w rv = ⟨0, [], [], false⟩)
      ∧ (w ≤ 0 → regs ≠ [] → EventLoop.run_once interp regs w rv = ⟨0, [], regs, true⟩)
      ∧ (poll [] w rv = ⟨0, [], false⟩) := by
  intro C interp regs w rv
  refine ⟨rfl, ?_, rfl⟩
  intro hw hne
  have hempty : regs.isEmpty = false := by
    cases regs with
    | nil => exact absurd rfl hne
    | cons r rs => rfl
  have hempty2 :
      (regs.map fun r => PollEntry.mk r.fd r.interest PollEvent.noneE).isEmpty = false := by
    cases regs with
    | nil => exact absurd rfl hne
    | cons r rs => rfl
  simp only [EventLoop.run_once, poll, hempty, hempty2, Bool.false_eq_true, if_false,
    if_pos hw]

/-- Witness for C9 at a concrete registration set and a poll failure. -/
theorem C9_run_once_empty_and_negative_poll_witness :
    (EventLoop.run_once (fun (_ : Unit) _ _ => []) ([] : List (Registration Unit)) 7
        (fun _ => PollEvent.noneE) = ⟨0, [], [], false⟩)
    ∧ (EventLoop.run_once (fun (_ : Unit) _ _ => [])
        [⟨3, PollEvent.writeOnly, some ()⟩] (-1) (fun _ => PollEvent.noneE)
        = ⟨0, [], [⟨3, PollEvent.writeOnly, some ()⟩], true⟩)
    ∧ (poll [] (-1) (fun _ => PollEvent.noneE) = ⟨0, [], false⟩) := by
  refine ⟨?_, ?_, ?_⟩
  · exact (C9_run_once_empty_and_negative_poll Unit (fun _ _ _ => [])
      [] 7 (fun _ => PollEvent.noneE)).1
  · exact (C9_run_once_empty_and_negative_poll Unit (fun _ _ _ => [])
      [⟨3, PollEvent.writeOnly, some ()⟩] (-1) (fun _ => PollEvent.noneE)).2.1
      (by norm_num) (by simp)
  · exact (C9_run_once_empty_and_negative_poll Unit (fun _ _ _ => [])
      [] (-1) (fun _ => PollEvent.noneE)).2.2

/-- An external operation on the Reactor's registration set. -/
inductive LoopOp (C : Type) where
  | addOp (fd : Fd) (interest : PollEvent) (cb : Option C)
  | removeOp (fd : Fd)

/-- Effect of one EventLoop operation on the registration set. -/
def applyOp {C : Type} (regs : List (Registration C)) : LoopOp C → List (Registration C)
  | .addOp fd i cb => EventLoop.add regs fd i cb
  | .removeOp fd => EventLoop.remove regs fd

/-- The registration set after a sequence of add/remove operations
starting from an empty Reactor. -/
def applyOps {C : Type} (ops : List (LoopOp C)) : List (Registration C) :=
  ops.foldl applyOp []

/-- The descriptors passed to add operations, in order, with repeats. -/
def addedFds {C : Type} : List (LoopOp C) → List Fd
  | [] => []
  | .addOp fd _ _ :: rest => fd :: addedFds rest
  | .removeOp _ :: rest => addedFds rest

theorem foldl_applyOp_invariant {C : Type} :
    ∀ (ops : List (LoopOp C)) (regs : List (Registration C)),
      (fdsOf regs).Nodup →
      (fdsOf (ops.foldl applyOp regs)).Nodup
      ∧ ∀ f ∈ fdsOf (ops.foldl applyOp regs), f ∈ fdsOf regs ∨ f ∈ addedFds ops := by
  intro ops
  induction ops with
  | nil => intro regs h; exact ⟨h, fun f hf => Or.inl hf⟩
  | cons op rest ih =>
    intro regs h
    cases op with
    | addOp fd i cb =>
      have h1 : (fdsOf (EventLoop.add regs fd i cb)).Nodup := nodup_add regs fd i cb h
      obtain ⟨hn, hmem⟩ := ih (EventLoop.add regs fd i cb) h1
      refine ⟨hn, fun f hf => ?_⟩
      rcases hmem f hf with hf1 | hf1
      · by_cases hm : fd ∈ fdsOf regs
        · rw [fdsOf_add_mem regs fd i cb hm] at hf1
          exact Or.inl hf1
        · rw [fdsOf_add_not_mem regs fd i cb hm] at hf1
          rcases List.mem_append.mp hf1 with hf2 | hf2
          · exact Or.inl hf2
          · rw [List.mem_singleton] at hf2
            exact Or.inr (by rw [hf2]; exact List.mem_cons_self _ _)
      · exact Or.inr (List.mem_cons_of_mem _ hf1)
    | removeOp fd =>
      have h1 : (fdsOf (EventLoop.remove regs fd)).Nodup := nodup_remove regs fd h
      obtain ⟨hn, hmem⟩ := ih (EventLoop.remove regs fd) h1
      refine ⟨hn, fun f hf => ?_⟩
      rcases hmem f hf with hf1 | hf1
      · exact Or.inl (fdsOf_remove_subset regs fd f hf1)
      · exact Or.inr hf1

/-- C2: at most one registration per descriptor — after every sequence of
add/remove operations from an empty Reactor the registered descriptors
are pairwise distinct and the registration count is bounded by the number
of distinct descriptors ever added; add on a registered descriptor
replaces interest and callback in place without changing the count; and
remove of an absent descriptor is the identity. -/
theorem C2_registration_uniqueness :
    ∀ (C : Type) (ops : List (LoopOp C)),
      (fdsOf (applyOps ops)).Nodup
      ∧ (applyOps ops).length ≤ (addedFds ops).dedup.length
      ∧ (∀ (regs : List (Registration C)) (f : Fd) (i : PollEvent) (cb : Option C),
          (fdsOf regs).Nodup → f ∈ fdsOf regs →
          (EventLoop.add regs f i cb).length = regs.length
          ∧ EventLoop.add regs f i cb
              = regs.map fun r => if r.fd = f then ⟨f, i, cb⟩ else r)
      ∧ (∀ (regs : List (Registration C)) (f : Fd),
          f ∉ fdsOf regs → EventLoop.remove regs f = regs) := by
  intro C ops
  obtain ⟨hn, hmem⟩ := foldl_applyOp_invariant ops [] (by simp [fdsOf])
  refine ⟨hn, ?_, ?_, ?_⟩
  · have hsub : ∀ f ∈ fdsOf (applyOps ops), f ∈ addedFds ops := by
      intro f hf
      rcases hmem f hf with hf1 | hf1
      · simp [fdsOf] at hf1
      · exact hf1
    have hlen : (applyOps ops).length = (fdsOf (applyOps ops)).length := by
      simp [fdsOf]
    rw [hlen]
    calc (fdsOf (applyOps ops)).length
        = (fdsOf (applyOps ops)).toFinset.card := (List.toFinset_card_of_nodup hn).symm
      _ ≤ (addedFds ops).toFinset.card := by
          apply Finset.card_le_card
          intro x hx
          rw [List.mem_toFinset] at hx ⊢
          exact hsub x hx
      _ = (addedFds ops).dedup.length := List.card_toFinset (addedFds ops)
  · intro regs f i cb hnd hm
    exact ⟨length_add_mem regs f i cb hm, add_eq_map_of_mem regs f i cb hnd hm⟩
  · intro regs f hm
    exact remove_absent regs f hm

/-- Witness for C2: a concrete sequence with a duplicate add and a
remove of an absent descriptor. -/
theorem C2_registration_uniqueness_witness :
    (fdsOf (applyOps [LoopOp.addOp 1 PollEvent.readOnly (some ()),
        LoopOp.addOp 1 PollEvent.writeOnly (some ()),
        LoopOp.addOp 2 PollEvent.readOnly (some ()),
        LoopOp.removeOp 9])).Nodup
    ∧ (applyOps [LoopOp.addOp 1 PollEvent.readOnly (some ()),
        LoopOp.addOp 1 PollEvent.writeOnly (some ()),
        LoopOp.addOp 2 PollEvent.readOnly (some ()),
        LoopOp.removeOp 9]).length
      ≤ (addedFds [LoopOp.addOp 1 PollEvent.readOnly (some ()),
        LoopOp.addOp (1 : Fd) PollEvent.writeOnly (some ()),
        LoopOp.addOp 2 PollEvent.readOnly (some ()),
        LoopOp.removeOp 9]).dedup.length
    ∧ ((fdsOf ([⟨1, PollEvent.readOnly, some ()⟩] : List (Registration Unit))).Nodup
        ∧ (1 : Fd) ∈ fdsOf ([⟨1, PollEvent.readOnly, some ()⟩] : List (Registration Unit))
        ∧ (EventLoop.add ([⟨1, PollEvent.readOnly, some ()⟩] : List (Registration Unit))
            1 PollEvent.writeOnly (some ())).length = 1)
    ∧ ((3 : Fd) ∉ fdsOf ([⟨1, PollEvent.readOnly, some ()⟩] : List (Registration Unit))
        ∧ EventLoop.remove ([⟨1, PollEvent.readOnly, some ()⟩] : List (Registration Unit)) 3
            = [⟨1, PollEvent.readOnly, some ()⟩]) := by
  have h1 : (fdsOf ([⟨1, PollEvent.readOnly, some ()⟩] : List (Registration Unit))).Nodup := by
    simp [fdsOf]
  have h2 : (1 : Fd) ∈ fdsOf ([⟨1, PollEvent.readOnly, some ()⟩] : List (Registration Unit)) := by
    simp [fdsOf]
  have h3 : (3 : Fd) ∉ fdsOf ([⟨1, PollEvent.readOnly, some ()⟩] : List (Registration Unit)) := by
    simp [fdsOf]
  refine ⟨(C2_registration_uniqueness Unit _).1, (C2_registration_uniqueness Unit _).2.1,
    ⟨h1, h2, ?_⟩, ⟨h3, ?_⟩⟩
  · exact ((C2_registration_uniqueness Unit []).2.2.1 _ 1 PollEvent.writeOnly (some ()) h1 h2).1
  · exact (C2_registration_uniqueness Unit []).2.2.2 _ 3 h3

/-- AsyncSocket::async_connect — an immediate connect success fires the
user callback inline with no error and installs nothing; an immediate
error other than WouldBlock fires the user callback with it and installs
nothing; a WouldBlock (connect in progress) installs one WriteReady
registration whose callback is `c`.  The second component lists the user
callback invocations performed during the call itself. -/
def AsyncSocket.async_connect {C : Type} (connectErr : Error) (fd : Fd) (c : C)
    (regs : List (Registration C)) : List (Registration C) × List Error :=
  if connectErr = Error.None then (regs, [Error.None])
  else if connectErr ≠ Error.WouldBlock then (regs, [connectErr])
  else (EventLoop.add regs fd PollEvent.writeOnly (some c), [])

/-- Body of the lambda async_connect registers: remove the registration,
then report ConnectFailed if readiness carried Error, otherwise success.
The second component is the user callback invocation (exactly one). -/
def AsyncSocket.connect_fire {C : Type} (fd : Fd) (events : PollEvent)
    (regs : List (Registration C)) : List (Registration C) × List Error :=
  let regs1 := EventLoop.remove regs fd
  if hasEvent events PollEvent.errOnly then (regs1, [Error.ConnectFailed])
  else (regs1, [Error.None])

/-- AsyncSocket::async_send — installs one WriteReady registration. -/
def AsyncSocket.async_send {C : Type} (fd : Fd) (c : C)
    (regs : List (Registration C)) : List (Registration C) :=
  EventLoop.add regs fd PollEvent.writeOnly (some c)

/-- Body of the lambda async_send registers: remove the registration,
then report SendFailed on Error readiness, the mapped platform error on a
negative raw send, or the byte count on success. -/
def AsyncSocket.send_fire {C : Type} (sendResult : Int) (lastErr : Error) (fd : Fd)
    (events : PollEvent) (regs : List (Registration C)) :
    List (Registration C) × List (Error × Int) :=
  let regs1 := EventLoop.remove regs fd
  if hasEvent events PollEvent.errOnly then (regs1, [(Error.SendFailed, -1)])
  else if sendResult < 0 then (regs1, [(lastErr, -1)])
  else (regs1, [(Error.None, sendResult)])

/-- AsyncSocket::async_recv — installs one ReadReady registration. -/
def AsyncSocket.async_recv {C : Type} (fd : Fd) (c : C)
    (regs : List (Registration C)) : List (Registration C) :=
  EventLoop.add regs fd PollEvent.readOnly (some c)

/-- Body of the lambda async_recv registers. -/
def AsyncSocket.recv_fire {C : Type} (recvResult : Int) (lastErr : Error) (fd : Fd)
    (events : PollEvent) (regs : List (Registration C)) :
    List (Registration C) × List (Error × Int) :=
  let regs1 := EventLoop.remove regs fd
  if hasEvent events PollEvent.errOnly then (regs1, [(Error.ReceiveFailed, -1)])
  else if recvResult < 0 then (regs1, [(lastErr, -1)])
  else (regs1, [(Error.None, recvResult)])

/-- The loop-visible effect of a one-shot AsyncSocket callback: its only
add/remove call on the loop is removing its own registration. -/
def oneShotInterp (C : Type) : Interp C := fun _ fd _ => [Action.removeA fd]

theorem dispatchLoop_oneShot_absent {C : Type} :
    ∀ (es : List PollEntry) (ss regs : List (Registration C)) (f : Fd),
      f ∉ fdsOf regs →
      f ∉ fdsOf (dispatchLoop (oneShotInterp C) es ss regs).regs := by
  intro es
  induction es with
  | nil => intro ss regs f hf; simpa [dispatchLoop] using hf
  | cons e es ih =>
    intro ss regs f hf
    cases ss with
    | nil => simpa [dispatchLoop] using hf
    | cons s ss =>
      by_cases hr : e.returned = PollEvent.noneE
      · simpa [dispatchLoop, hr] using ih ss regs f hf
      · cases hcb : s.callback with
        | none => simpa [dispatchLoop, hr, hcb] using ih ss regs f hf
        | some c =>
          have hf1 : f ∉ fdsOf (EventLoop.remove regs e.fd) :=
            fun hm => hf (fdsOf_remove_subset regs e.fd f hm)
          simpa [dispatchLoop, hr, hcb, oneShotInterp, applyActions, applyAction] using
            ih ss (EventLoop.remove regs e.fd) f hf1

theorem dispatchLoop_oneShot_dispatched_absent {C : Type} :
    ∀ (es : List PollEntry) (ss regs : List (Registration C))
      (f : Fd) (ev : PollEvent) (c : C),
      (f, ev, some c) ∈ (dispatchLoop (oneShotInterp C) es ss regs).log →
      f ∉ fdsOf (dispatchLoop (oneShotInterp C) es ss regs).regs := by
  intro es
  induction es with
  | nil => intro ss regs f ev c h; simp [dispatchLoop] at h
  | cons e es ih =>
    intro ss regs f ev c h
    cases ss with
    | nil => simp [dispatchLoop] at h
    | cons s ss =>
      by_cases hr : e.returned = PollEvent.noneE
      · rw [dispatchLoop, if_pos hr] at h ⊢
        exact ih ss regs f ev c h
      · rw [dispatchLoop, if_neg hr] at h ⊢
        simp only [List.mem_cons] at h
        cases hcb : s.callback with
        | none =>
          rw [hcb] at h
          rcases h with h | h
          · simp at h
          · exact ih ss regs f ev c h
        | some c0 =>
          rw [hcb] at h
          rcases h with h | h
          · have hffd : f = e.fd := congrArg Prod.fst h
            rw [hffd]
            exact dispatchLoop_oneShot_absent es ss (EventLoop.remove regs e.fd) e.fd
              (not_mem_fdsOf_remove_self regs e.fd)
          · exact ih ss (EventLoop.remove regs e.fd) f ev c h

theorem run_once_oneShot_dispatched_absent {C : Type}
    (regs : List (Registration C)) (w : Int) (rv : Nat → PollEvent)
    (f : Fd) (ev : PollEvent) (c : C)
    (h : (f, ev, some c) ∈ (EventLoop.run_once (oneShotInterp C) regs w rv).log) :
    f ∉ fdsOf (EventLoop.run_once (oneShotInterp C) regs w rv).finalRegs := by
  cases regs with
  | nil => simp [EventLoop.run_once] at h
  | cons r rs =>
    by_cases hw : w ≤ 0
    · simp only [EventLoop.run_once, poll] at h
      simp [if_pos hw] at h
    · have hw2 : 0 < w := lt_of_not_le hw
      simp only [EventLoop.run_once, poll, List.isEmpty_cons, Bool.false_eq_true, if_false,
        List.map_cons, if_pos hw2, if_neg hw] at h ⊢
      exact dispatchLoop_oneShot_dispatched_absent _ _ _ f ev c h

/-- C3: each of async_connect (in its WouldBlock branch), async_send and
async_recv installs exactly one registration for exactly one interest;
each installed callback removes its own registration before the user
callback runs (the descriptor is absent from the loop-state component
handed to the user callback, and exactly one user invocation happens);
and in a run_once cycle where all callbacks are such self-removing
one-shots, every descriptor dispatched to a callback is unregistered
after the cycle, so it cannot fire again in a later cycle. -/
theorem C3_one_shot_operations :
    ∀ (C : Type) (regs : List (Registration C)) (fd : Fd) (c : C),
      ((fdsOf regs).Nodup →
        (AsyncSocket.async_send fd c regs).filter (fun r => r.fd = fd)
            = [⟨fd, PollEvent.writeOnly, some c⟩]
        ∧ (AsyncSocket.async_recv fd c regs).filter (fun r => r.fd = fd)
            = [⟨fd, PollEvent.readOnly, some c⟩]
        ∧ (AsyncSocket.async_connect Error.WouldBlock fd c regs).1.filter
            (fun r => r.fd = fd) = [⟨fd, PollEvent.writeOnly, some c⟩]
        ∧ (AsyncSocket.async_connect Error.WouldBlock fd c regs).2 = [])
      ∧ (∀ (sr : Int) (le : Error) (ev : PollEvent),
          fd ∉ fdsOf (AsyncSocket.send_fire sr le fd ev regs).1
          ∧ (AsyncSocket.send_fire sr le fd ev regs).2.length = 1)
      ∧ (∀ (rr : Int) (le : Error) (ev : PollEvent),
          fd ∉ fdsOf (AsyncSocket.recv_fire rr le fd ev regs).1
          ∧ (AsyncSocket.recv_fire rr le fd ev regs).2.length = 1)
      ∧ (∀ ev : PollEvent,
          fd ∉ fdsOf (AsyncSocket.connect_fire fd ev regs).1
          ∧ (AsyncSocket.connect_fire fd ev regs).2.length = 1)
      ∧ (∀ (w : Int) (rv : Nat → PollEvent) (f : Fd) (ev : PollEvent) (c2 : C),
          (f, ev, some c2) ∈ (EventLoop.run_once (oneShotInterp C) regs w rv).log →
          f ∉ fdsOf (EventLoop.run_once (oneShotInterp C) regs w rv).finalRegs) := by
  intro C regs fd c
  refine ⟨?_, ?_, ?_, ?_, ?_⟩
  · intro hnd
    refine ⟨filter_add_self regs fd _ _ hnd, filter_add_self regs fd _ _ hnd, ?_, ?_⟩
    · simpa [AsyncSocket.async_connect] using filter_add_self regs fd _ (some c) hnd
    · simp [AsyncSocket.async_connect]
  · intro sr le ev
    constructor
    · by_cases h1 : hasEvent ev PollEvent.errOnly <;> by_cases h2 : sr < 0 <;>
        simp [AsyncSocket.send_fire, h1, h2, not_mem_fdsOf_remove_self]
    · by_cases h1 : hasEvent ev PollEvent.errOnly <;> by_cases h2 : sr < 0 <;>
        simp [AsyncSocket.send_fire, h1, h2]
  · intro rr le ev
    constructor
    · by_cases h1 : hasEvent ev PollEvent.errOnly <;> by_cases h2 : rr < 0 <;>
        simp [AsyncSocket.recv_fire, h1, h2, not_mem_fdsOf_remove_self]
    · by_cases h1 : hasEvent ev PollEvent.errOnly <;> by_cases h2 : rr < 0 <;>
        simp [AsyncSocket.recv_fire, h1, h2]
  · intro ev
    constructor
    · by_cases h1 : hasEvent ev PollEvent.errOnly <;>
        simp [AsyncSocket.connect_fire, h1, not_mem_fdsOf_remove_self]
    · by_cases h1 : hasEvent ev PollEvent.errOnly <;>
        simp [AsyncSocket.connect_fire, h1]
  · intro w rv f ev c2 h
    exact run_once_oneShot_dispatched_absent regs w rv f ev c2 h

/-- Witness for C3 at a concrete loop: one registered one-shot callback
fires and its descriptor is unregistered afterwards. -/
theorem C3_one_shot_operations_witness :
    ((fdsOf ([] : List (Registration Unit))).Nodup
      ∧ (AsyncSocket.async_send 4 () ([] : List (Registration Unit))).filter
          (fun r => r.fd = 4) = [⟨4, PollEvent.writeOnly, some ()⟩])
    ∧ ((4 : Fd) ∉ fdsOf (AsyncSocket.send_fire 10 Error.Unknown 4 PollEvent.writeOnly
          ([⟨4, PollEvent.writeOnly, some ()⟩] : List (Registration Unit))).1)
    ∧ ((4, PollEvent.writeOnly, some ()) ∈
          (EventLoop.run_once (oneShotInterp Unit)
            ([⟨4, PollEvent.writeOnly, some ()⟩] : List (Registration Unit)) 1
            (fun _ => PollEvent.writeOnly)).log
        → (4 : Fd) ∉ fdsOf (EventLoop.run_once (oneShotInterp Unit)
            ([⟨4, PollEvent.writeOnly, some ()⟩] : List (Registration Unit)) 1
            (fun _ => PollEvent.writeOnly)).finalRegs)
    ∧ ((4, PollEvent.writeOnly, some ()) ∈
          (EventLoop.run_once (oneShotInterp Unit)
            ([⟨4, PollEvent.writeOnly, some ()⟩] : List (Registration Unit)) 1
            (fun _ => PollEvent.writeOnly)).log) := by
  have hnd : (fdsOf ([] : List (Registration Unit))).Nodup := by simp [fdsOf]
  refine ⟨⟨hnd, ?_⟩, ?_, ?_, ?_⟩
  · exact ((C3_one_shot_operations Unit [] 4 ()).1 hnd).1
  · exact ((C3_one_shot_operations Unit [⟨4, PollEvent.writeOnly, some ()⟩] 4 ()).2.1
      10 Error.Unknown PollEvent.writeOnly).1
  · exact fun h => (C3_one_shot_operations Unit [⟨4, PollEvent.writeOnly, some ()⟩]
      4 ()).2.2.2.2 1 (fun _ => PollEvent.writeOnly) 4 PollEvent.writeOnly () h
  · simp [EventLoop.run_once, poll, fillReturned, dispatchLoop, PollEvent.writeOnly,
      PollEvent.noneE]

/-- net::Socket::AcceptResult — error code, new client descriptor, peer
address (addresses abstracted as a Nat; the default-constructed address
is 0). -/
structure AcceptRes where
  error : Error
  client_fd : Fd
  address : Nat
deriving DecidableEq, Repr

/-- One invocation of the user AcceptCallback: (error, client fd,
address). -/
structure AcceptReport where
  err : Error
  client_fd : Fd
  address : Nat
deriving DecidableEq, Repr

/-- AsyncSocket::async_accept — installs one persistent ReadReady
registration. -/
def AsyncSocket.async_accept {C : Type} (fd : Fd) (c : C)
    (regs : List (Registration C)) : List (Registration C) :=
  EventLoop.add regs fd PollEvent.readOnly (some c)

/-- Body of the lambda async_accept registers, with the accept() outcome
as oracle `res`: Error readiness removes the registration and reports
AcceptFailed; a WouldBlock accept result is swallowed with the
registration kept; any other accept error removes the registration and
reports it; success reports the client and keeps the registration. -/
def AsyncSocket.accept_fire {C : Type} (res : AcceptRes) (fd : Fd) (events : PollEvent)
    (regs : List (Registration C)) : List (Registration C) × List AcceptReport :=
  if hasEvent events PollEvent.errOnly then
    (EventLoop.remove regs fd, [⟨Error.AcceptFailed, invalid_socket, 0⟩])
  else if is_error res.error then
    if res.error = Error.WouldBlock then (regs, [])
    else (EventLoop.remove regs fd, [⟨res.error, invalid_socket, 0⟩])
  else (regs, [⟨Error.None, res.client_fd, res.address⟩])

/-- C4: case analysis of one async_accept firing — Error readiness
removes the registration and reports failure; a WouldBlock accept keeps
the registration with no report; any other accept failure removes the
registration and reports that error; a successful accept reports the new
client and leaves the registration set untouched. -/
theorem C4_async_accept_cases :
    ∀ (C : Type) (res : AcceptRes) (fd : Fd) (events : PollEvent)
      (regs : List (Registration C)),
      (hasEvent events PollEvent.errOnly = true →
        (AsyncSocket.accept_fire res fd events regs).1 = EventLoop.remove regs fd
        ∧ fd ∉ fdsOf (AsyncSocket.accept_fire res fd events regs).1
        ∧ (AsyncSocket.accept_fire res fd events regs).2
            = [⟨Error.AcceptFailed, invalid_socket, 0⟩])
      ∧ (hasEvent events PollEvent.errOnly = false → res.error = Error.WouldBlock →
        (AsyncSocket.accept_fire res fd events regs).1 = regs
        ∧ (AsyncSocket.accept_fire res fd events regs).2 = [])
      ∧ (hasEvent events PollEvent.errOnly = false →
          res.error ≠ Error.None → res.error ≠ Error.WouldBlock →
        (AsyncSocket.accept_fire res fd events regs).1 = EventLoop.remove regs fd
        ∧ fd ∉ fdsOf (AsyncSocket.accept_fire res fd events regs).1
        ∧ (AsyncSocket.accept_fire res fd events regs).2
            = [⟨res.error, invalid_socket, 0⟩])
      ∧ (hasEvent events PollEvent.errOnly = false → res.error = Error.None →
        (AsyncSocket.accept_fire res fd events regs).1 = regs
        ∧ (AsyncSocket.accept_fire res fd events regs).2
            = [⟨Error.None, res.client_fd, res.address⟩]) := by
  intro C res fd events regs
  refine ⟨?_, ?_, ?_, ?_⟩
  · intro h
    simp [AsyncSocket.accept_fire, h, not_mem_fdsOf_remove_self]
  · intro h herr
    simp [AsyncSocket.accept_fire, h, herr, is_error]
  · intro h hne hwb
    simp [AsyncSocket.accept_fire, h, hne, hwb, is_error, not_mem_fdsOf_remove_self]
  · intro h herr
    simp [AsyncSocket.accept_fire, h, herr, is_error]

/-- Witness for C4: a successful accept keeps the registration and
reports the client; a WouldBlock wakeup reports nothing. -/
theorem C4_async_accept_cases_witness :
    (hasEvent PollEvent.readOnly PollEvent.errOnly = false
      ∧ (AcceptRes.mk Error.None 7 42).error = Error.None
      ∧ (AsyncSocket.accept_fire (AcceptRes.mk Error.None 7 42) 3 PollEvent.readOnly
          ([⟨3, PollEvent.readOnly, some ()⟩] : List (Registration Unit))).1
          = [⟨3, PollEvent.readOnly, some ()⟩]
      ∧ (AsyncSocket.accept_fire (AcceptRes.mk Error.None 7 42) 3 PollEvent.readOnly
          ([⟨3, PollEvent.readOnly, some ()⟩] : List (Registration Unit))).2
          = [⟨Error.None, 7, 42⟩])
    ∧ ((AsyncSocket.accept_fire (AcceptRes.mk Error.WouldBlock invalid_socket 0) 3
          PollEvent.readOnly
          ([⟨3, PollEvent.readOnly, some ()⟩] : List (Registration Unit))).1
          = [⟨3, PollEvent.readOnly, some ()⟩]
      ∧ (AsyncSocket.accept_fire (AcceptRes.mk Error.WouldBlock invalid_socket 0) 3
          PollEvent.readOnly
          ([⟨3, PollEvent.readOnly, some ()⟩] : List (Registration Unit))).2 = []) := by
  have h1 : hasEvent PollEvent.readOnly PollEvent.errOnly = false := by decide
  refine ⟨⟨h1, rfl, ?_, ?_⟩, ?_, ?_⟩
  · exact ((C4_async_accept_cases Unit (AcceptRes.mk Error.None 7 42) 3 PollEvent.readOnly
      [⟨3, PollEvent.readOnly, some ()⟩]).2.2.2 h1 rfl).1
  · exact ((C4_async_accept_cases Unit (AcceptRes.mk Error.None 7 42) 3 PollEvent.readOnly
      [⟨3, PollEvent.readOnly, some ()⟩]).2.2.2 h1 rfl).2
  · exact ((C4_async_accept_cases Unit (AcceptRes.mk Error.WouldBlock invalid_socket 0) 3
      PollEvent.readOnly [⟨3, PollEvent.readOnly, some ()⟩]).2.1 h1 rfl).1
  · exact ((C4_async_accept_cases Unit (AcceptRes.mk Error.WouldBlock invalid_socket 0) 3
      PollEvent.readOnly [⟨3, PollEvent.readOnly, some ()⟩]).2.1 h1 rfl).2

/-- Status of the secure-channel provider's handshake call
(SEC_E_OK, SEC_I_CONTINUE_NEEDED, SEC_E_INCOMPLETE_MESSAGE, or any other
terminal failure status). -/
inductive SecStatus where
  | ok
  | continueNeeded
  | incompleteMessage
  | failedStatus
deriving DecidableEq, Repr

/-- The while-condition of the handshake loop:
status == SEC_I_CONTINUE_NEEDED || status == SEC_E_INCOMPLETE_MESSAGE. -/
def SecStatus.continuing : SecStatus → Bool
  | .continueNeeded => true
  | .incompleteMessage => true
  | _ => false

/-- Oracle for one handshake-loop iteration: the raw blocking recv
return value and the bytes it delivered (recvRet > 0 in faithful runs
means bytes.length = recvRet), the provider status after feeding the
accumulated input, and the size of the SECBUFFER_EXTRA slice if the
provider reported unconsumed trailing input.  The output token the
provider may produce is sent on the raw socket and does not affect the
loop state, so it is not modelled. -/
structure HsStep where
  recvRet : Int
  bytes : List Nat
  status : SecStatus
  extra : Option Nat
deriving Repr

/-- Terminal outcome of the handshake loop.  `starved` models the loop
still asking for input when the oracle script is exhausted (a raw recv
that would block forever). -/
inductive HsResult where
  | established
  | handshakeFailed
  | starved
deriving DecidableEq, Repr

/-- The accumulation-buffer update at the end of one loop iteration
(tls_socket.hpp lines 477-485): if the provider reported an EXTRA slice
of size e, memmove keeps the last e bytes of the accumulated content;
otherwise the buffer is cleared unless the status is
SEC_E_INCOMPLETE_MESSAGE, in which case the content is kept. -/
def hsNextBuf (buf : List Nat) (st : HsStep) : List Nat :=
  let content := buf ++ st.bytes
  match st.extra with
  | some e => content.drop (content.length - e)
  | none => if st.status = SecStatus.incompleteMessage then content else []

/-- The handshake loop of TlsSocket::perform_handshake, driven by the
oracle script: while the status is continue-needed or incomplete-input,
do a raw recv (fail the handshake immediately if it returns zero or
negative), append the bytes, feed the provider, and carry the
accumulation buffer forward; on loop exit the handshake is Established
exactly when the status is SEC_E_OK. -/
def hsLoop (s : SecStatus) (buf : List Nat) (steps : List HsStep) : HsResult :=
  if s.continuing then
    match steps with
    | [] => .starved
    | st :: rest =>
      if st.recvRet ≤ 0 then .handshakeFailed
      else hsLoop st.status (hsNextBuf buf st) rest
  else if s = SecStatus.ok then .established else .handshakeFailed

/-- C5: while the handshake loop is still running (provider status is
continue-needed or incomplete-input), a raw recv returning zero or a
negative value makes the handshake fail immediately — the result is
HandshakeFailed whatever input would have followed, and Established is
never reached. -/
theorem C5_handshake_recv_closed_fails :
    ∀ (s : SecStatus) (buf : List Nat) (st : HsStep) (rest : List HsStep),
      s.continuing = true → st.recvRet ≤ 0 →
      hsLoop s buf (st :: rest) = HsResult.handshakeFailed
      ∧ hsLoop s buf (st :: rest) ≠ HsResult.established := by
  intro s buf st rest hc hr
  have h : hsLoop s buf (st :: rest) = HsResult.handshakeFailed := by
    rw [hsLoop, if_pos hc, if_pos hr]
  exact ⟨h, by rw [h]; intro hcon; cases hcon⟩

/-- Witness for C5 — the spec scenario: the peer answers the initial
token (provider says continue-needed) and then closes, so the next raw
recv returns 0; the handshake reports HandshakeFailed. -/
theorem C5_handshake_recv_closed_fails_witness :
    (SecStatus.continueNeeded.continuing = true ∧ (0 : Int) ≤ 0)
    ∧ hsLoop SecStatus.continueNeeded []
        [⟨0, [], SecStatus.continueNeeded, none⟩] = HsResult.handshakeFailed := by
  refine ⟨⟨rfl, le_refl 0⟩, ?_⟩
  exact (C5_handshake_recv_closed_fails SecStatus.continueNeeded []
    ⟨0, [], SecStatus.continueNeeded, none⟩ [] rfl (le_refl 0)).1

/-- C6: in one successful iteration of the handshake loop the
accumulation buffer carried to the next iteration is: the trailing
extra-size slice of the accumulated content when the provider reported
EXTRA (a suffix of exactly that length), the empty buffer when the
provider neither reported EXTRA nor asked for more input, and the whole
accumulated content when it reported incomplete input. -/
theorem C6_handshake_extra_carry :
    ∀ (s : SecStatus) (buf : List Nat) (st : HsStep) (rest : List HsStep),
      s.continuing = true → 0 < st.recvRet →
      (hsLoop s buf (st :: rest) = hsLoop st.status (hsNextBuf buf st) rest)
      ∧ (∀ e : Nat, st.extra = some e → e ≤ (buf ++ st.bytes).length →
          (hsNextBuf buf st).length = e
          ∧ List.IsSuffix (hsNextBuf buf st) (buf ++ st.bytes))
      ∧ (st.extra = none → st.status ≠ SecStatus.incompleteMessage →
          hsNextBuf buf st = [])
      ∧ (st.extra = none → st.status = SecStatus.incompleteMessage →
          hsNextBuf buf st = buf ++ st.bytes) := by
  intro s buf st rest hc hr
  have hnr : ¬ st.recvRet ≤ 0 := not_le.mpr hr
  refine ⟨by rw [hsLoop, if_pos hc, if_neg hnr], ?_, ?_, ?_⟩
  · intro e he hle
    constructor
    · simp only [List.length_append] at hle
      simp [hsNextBuf, he]
      omega
    · rw [hsNextBuf]
      simp only [he]
      exact List.drop_suffix _ _
  · intro he hst
    simp [hsNextBuf, he, hst]
  · intro he hst
    simp [hsNextBuf, he, hst]

/-- Witness for C6: a concrete iteration where three of five accumulated
bytes are consumed and the provider reports a two-byte EXTRA slice. -/
theorem C6_handshake_extra_carry_witness :
    (SecStatus.continueNeeded.continuing = true ∧ (0 : Int) < 2
      ∧ (HsStep.mk 2 [4, 5] SecStatus.continueNeeded (some 2)).extra = some 2
      ∧ 2 ≤ (([1, 2, 3] : List Nat) ++ [4, 5]).length)
    ∧ (hsNextBuf [1, 2, 3] (HsStep.mk 2 [4, 5] SecStatus.continueNeeded (some 2))).length = 2
    ∧ List.IsSuffix (hsNextBuf [1, 2, 3] (HsStep.mk 2 [4, 5] SecStatus.continueNeeded (some 2)))
        (([1, 2, 3] : List Nat) ++ [4, 5])
    ∧ hsNextBuf [1, 2, 3] (HsStep.mk 2 [4, 5] SecStatus.continueNeeded (some 2)) = [4, 5] := by
  refine ⟨⟨rfl, by norm_num, rfl, by simp⟩, ?_, ?_, by decide⟩
  · exact ((C6_handshake_extra_carry SecStatus.continueNeeded [1, 2, 3]
      (HsStep.mk 2 [4, 5] SecStatus.continueNeeded (some 2)) [] rfl (by norm_num)).2.1
      2 rfl (by simp)).1
  · exact ((C6_handshake_extra_carry SecStatus.continueNeeded [1, 2, 3]
      (HsStep.mk 2 [4, 5] SecStatus.continueNeeded (some 2)) [] rfl (by norm_num)).2.1
      2 rfl (by simp)).2

/-- SecPkgContext_StreamSizes — the RecordSizing cached after the
handshake. -/
structure StreamSizes where
  cbHeader : Nat
  cbTrailer : Nat
  cbMaximumMessage : Nat
deriving DecidableEq, Repr

/-- The contiguous message buffer TlsSocket::send builds: cbHeader zero
bytes of header space, the plaintext, and cbTrailer zero bytes of trailer
space. -/
def TlsSocket.sendMsgBuf (sz : StreamSizes) (data : List Nat) : List Nat :=
  List.replicate sz.cbHeader 0 ++ data ++ List.replicate sz.cbTrailer 0

/-- TlsSocket::send — returns -1 with no transport activity when the
handshake is not done; otherwise builds the contiguous buffer, has the
provider encrypt it in place (`encryptMessage` returns the transformed
buffer, or none on failure), transmits it via the raw socket
(`rawSend` is its return value) and returns the plaintext size when the
raw send was positive, -1 otherwise.  The second component is the wire
buffer handed to the raw socket, none when nothing was transmitted. -/
def TlsSocket.send (handshake_done : Bool) (sz : StreamSizes)
    (encryptMessage : List Nat → Option (List Nat))
    (rawSend : List Nat → Int) (data : List Nat) : Int × Option (List Nat) :=
  if handshake_done = false then (-1, none)
  else
    match encryptMessage (TlsSocket.sendMsgBuf sz data) with
    | none => (-1, none)
    | some wire =>
      if 0 < rawSend wire then ((data.length : Int), some wire) else (-1, some wire)

/-- C7: framed send before Established returns -1 without touching the
transport; otherwise it builds one contiguous buffer of length
header + N + trailer with the plaintext at offset header, encrypts it in
place, transmits it whole, and returns the plaintext count N on success
and -1 on any raw send failure or encryption failure (never the wire
count). -/
theorem C7_tls_send_framing :
    ∀ (sz : StreamSizes) (encryptMessage : List Nat → Option (List Nat))
      (rawSend : List Nat → Int) (data : List Nat),
      (TlsSocket.send false sz encryptMessage rawSend data = (-1, none))
      ∧ (TlsSocket.sendMsgBuf sz data).length = sz.cbHeader + data.length + sz.cbTrailer
      ∧ ((TlsSocket.sendMsgBuf sz data).drop sz.cbHeader).take data.length = data
      ∧ (∀ wire : List Nat, encryptMessage (TlsSocket.sendMsgBuf sz data) = some wire →
          (0 < rawSend wire →
            TlsSocket.send true sz encryptMessage rawSend data = ((data.length : Int), some wire))
          ∧ (rawSend wire ≤ 0 →
            TlsSocket.send true sz encryptMessage rawSend data = (-1, some wire))
          ∧ (wire.length = (TlsSocket.sendMsgBuf sz data).length →
            wire.length = sz.cbHeader + data.length + sz.cbTrailer))
      ∧ (encryptMessage (TlsSocket.sendMsgBuf sz data) = none →
          TlsSocket.send true sz encryptMessage rawSend data = (-1, none)) := by
  intro sz encryptMessage rawSend data
  have hlen : (TlsSocket.sendMsgBuf sz data).length
      = sz.cbHeader + data.length + sz.cbTrailer := by
    simp [TlsSocket.sendMsgBuf]
    omega
  refine ⟨rfl, hlen, ?_, ?_, ?_⟩
  · rw [TlsSocket.sendMsgBuf, List.append_assoc,
      List.drop_left' (List.length_replicate _ _), List.take_left' rfl]
  · intro wire hw
    refine ⟨?_, ?_, ?_⟩
    · intro hs
      simp [TlsSocket.send, hw, hs]
    · intro hs
      simp [TlsSocket.send, hw, not_lt.mpr hs]
    · intro hwl
      rw [hwl, hlen]
  · intro hw
    simp [TlsSocket.send, hw]

/-- Witness for C7: a two-byte payload with one-byte header and trailer;
the provider flips bytes in place, the raw send succeeds. -/
theorem C7_tls_send_framing_witness :
    ((fun b : List Nat => some (b.map (fun x => x + 1))) (TlsSocket.sendMsgBuf
        (StreamSizes.mk 1 1 100) [7, 8]) = some [1, 8, 9, 1])
    ∧ (0 : Int) < (fun _ : List Nat => (4 : Int)) [1, 8, 9, 1]
    ∧ TlsSocket.send true (StreamSizes.mk 1 1 100)
        (fun b => some (b.map (fun x => x + 1))) (fun _ => (4 : Int)) [7, 8]
        = ((2 : Int), some [1, 8, 9, 1]) := by
  have h1 : (fun b : List Nat => some (b.map (fun x => x + 1))) (TlsSocket.sendMsgBuf
      (StreamSizes.mk 1 1 100) [7, 8]) = some [1, 8, 9, 1] := by
    simp [TlsSocket.sendMsgBuf]
  refine ⟨h1, by norm_num, ?_⟩
  have := ((C7_tls_send_framing (StreamSizes.mk 1 1 100)
      (fun b => some (b.map (fun x => x + 1))) (fun _ => (4 : Int)) [7, 8]).2.2.2.1
      [1, 8, 9, 1] h1).1 (by norm_num)
  simpa using this

/-- One raw recv outcome: its return value and delivered bytes. -/
structure RawIn where
  ret : Int
  bytes : List Nat
deriving Repr

/-- Result of TlsSocket::recv: the return value, the number of raw recv
calls performed during this call, and the plaintext bytes copied into the
caller's buffer. -/
structure RecvOut where
  ret : Int
  rawRecvCalls : Nat
  copied : List Nat
deriving DecidableEq, Repr

/-- The scan predicate of TlsSocket::recv: a decrypt output region of
type SECBUFFER_DATA with a positive byte count. -/
def isDataBuf (b : Bool × List Nat) : Bool :=
  b.1 && decide (0 < b.2.length)

/-- TlsSocket::recv — returns -1 with no transport activity when the
handshake is not done; performs exactly one raw recv otherwise, passing
a zero/negative return straight through; feeds the received chunk to the
provider's decrypt (`decryptMessage` returns the typed output regions,
none on failure), scans for the first plaintext region, and copies at
most `cap` (the caller's buffer capacity) bytes from it, returning the
copied count, or -1 when decryption fails or no plaintext region
exists. -/
def TlsSocket.recv (handshake_done : Bool)
    (decryptMessage : List Nat → Option (List (Bool × List Nat)))
    (cap : Nat) (raw : RawIn) : RecvOut :=
  if handshake_done = false then ⟨-1, 0, []⟩
  else if raw.ret ≤ 0 then ⟨raw.ret, 1, []⟩
  else
    match decryptMessage raw.bytes with
    | none => ⟨-1, 1, []⟩
    | some outs =>
      match outs.find? isDataBuf with
      | none => ⟨-1, 1, []⟩
      | some b =>
        let copyLen := min b.2.length cap
        ⟨(copyLen : Int), 1, b.2.take copyLen⟩

/-- C8: framed recv performs at most one raw recv per call (none before
Established); it returns -1 when not Established, when decrypt fails, or
when no plaintext region is produced; it passes a zero/negative raw recv
return through unchanged; and on success it returns and copies
min(plaintext length, caller capacity) bytes, never more than the
capacity. -/
theorem C8_tls_recv_single_read :
    ∀ (decryptMessage : List Nat → Option (List (Bool × List Nat)))
      (cap : Nat) (raw : RawIn) (done : Bool),
      (TlsSocket.recv false decryptMessage cap raw = ⟨-1, 0, []⟩)
      ∧ (TlsSocket.recv done decryptMessage cap raw).rawRecvCalls ≤ 1
      ∧ (raw.ret ≤ 0 → TlsSocket.recv true decryptMessage cap raw = ⟨raw.ret, 1, []⟩)
      ∧ (0 < raw.ret → decryptMessage raw.bytes = none →
          TlsSocket.recv true decryptMessage cap raw = ⟨-1, 1, []⟩)
      ∧ (∀ outs, 0 < raw.ret → decryptMessage raw.bytes = some outs →
          (outs.find? isDataBuf = none →
            TlsSocket.recv true decryptMessage cap raw = ⟨-1, 1, []⟩)
          ∧ (∀ b, outs.find? isDataBuf = some b →
            (TlsSocket.recv true decryptMessage cap raw).ret
                = ((min b.2.length cap : Nat) : Int)
            ∧ (TlsSocket.recv true decryptMessage cap raw).copied.length
                = min b.2.length cap
            ∧ (TlsSocket.recv true decryptMessage cap raw).copied.length ≤ cap)) := by
  intro decryptMessage cap raw done
  refine ⟨rfl, ?_, ?_, ?_, ?_⟩
  · cases done with
    | false => simp [TlsSocket.recv]
    | true =>
      by_cases h1 : raw.ret ≤ 0
      · simp [TlsSocket.recv, h1]
      · cases h2 : decryptMessage raw.bytes with
        | none => simp [TlsSocket.recv, h1, h2]
        | some outs =>
          cases h3 : outs.find? isDataBuf with
          | none => simp [TlsSocket.recv, h1, h2, h3]
          | some b => simp [TlsSocket.recv, h1, h2, h3]
  · intro h1
    simp [TlsSocket.recv, h1]
  · intro h1 h2
    simp [TlsSocket.recv, not_le.mpr h1, h2]
  · intro outs h1 h2
    constructor
    · intro h3
      simp [TlsSocket.recv, not_le.mpr h1, h2, h3]
    · intro b h3
      refine ⟨?_, ?_, ?_⟩
      · simp [TlsSocket.recv, not_le.mpr h1, h2, h3]
      · simp [TlsSocket.recv, not_le.mpr h1, h2, h3]
      · simp [TlsSocket.recv, not_le.mpr h1, h2, h3]

/-- Witness for C8: a five-byte plaintext region against a three-byte
caller buffer — three bytes are copied; a closed-connection raw recv of 0
passes through. -/
theorem C8_tls_recv_single_read_witness :
    ((0 : Int) < 2
      ∧ (fun _ : List Nat => some [(false, ([] : List Nat)), (true, [9, 9, 9, 9, 9])])
          ([5, 6] : List Nat) = some [(false, []), (true, [9, 9, 9, 9, 9])]
      ∧ ([(false, ([] : List Nat)), (true, [9, 9, 9, 9, 9])].find? isDataBuf
          = some (true, [9, 9, 9, 9, 9]))
      ∧ (TlsSocket.recv true
          (fun _ => some [(false, []), (true, [9, 9, 9, 9, 9])]) 3 (RawIn.mk 2 [5, 6])).ret
          = ((min 5 3 : Nat) : Int)
      ∧ (TlsSocket.recv true
          (fun _ => some [(false, []), (true, [9, 9, 9, 9, 9])]) 3
          (RawIn.mk 2 [5, 6])).copied.length ≤ 3)
    ∧ ((0 : Int) ≤ 0
      ∧ TlsSocket.recv true (fun _ => none) 3 (RawIn.mk 0 []) = ⟨0, 1, []⟩) := by
  have hfind : ([(false, ([] : List Nat)), (true, [9, 9, 9, 9, 9])].find? isDataBuf
      = some (true, [9, 9, 9, 9, 9])) := by decide
  have h := (C8_tls_recv_single_read
      (fun _ => some [(false, []), (true, [9, 9, 9, 9, 9])]) 3 (RawIn.mk 2 [5, 6]) true).2.2.2.2
      [(false, []), (true, [9, 9, 9, 9, 9])] (by norm_num) rfl
  refine ⟨⟨by norm_num, rfl, hfind, ?_, ?_⟩, ⟨le_refl 0, ?_⟩⟩
  · exact (h.2 (true, [9, 9, 9, 9, 9]) hfind).1
  · exact (h.2 (true, [9, 9, 9, 9, 9]) hfind).2.2
  · exact (C8_tls_recv_single_read (fun _ => none) 3 (RawIn.mk 0 []) true).2.2.1 (le_refl 0)

/-- The TlsSocket state relevant to close: whether the handshake had
completed, whether the transport socket is open, and a counter of
protocol-level shutdown-token emissions attempted (ApplyControlToken). -/
structure TlsCloseState where
  handshake_done : Bool
  sockOpen : Bool
  shutdownTokens : Nat
deriving DecidableEq, Repr

/-- TlsSocket::handshake_complete. -/
def TlsSocket.handshake_complete (s : TlsCloseState) : Bool := s.handshake_done

/-- TlsSocket::close — when the handshake had completed, attempt the
protocol shutdown token and clear handshake_done; then unconditionally
close the transport socket. -/
def TlsSocket.close (s : TlsCloseState) : TlsCloseState :=
  let s1 := if s.handshake_done
    then { s with shutdownTokens := s.shutdownTokens + 1, handshake_done := false }
    else s
  { s1 with sockOpen := false }

/-- C10: after close the transport is closed and handshake_complete is
false, so subsequent framed send/recv return -1 without touching the
transport; the shutdown token is attempted exactly when the handshake had
completed, and a second close attempts no second shutdown token. -/
theorem C10_tls_close_idempotent_shutdown :
    ∀ (s : TlsCloseState) (sz : StreamSizes)
      (encryptMessage : List Nat → Option (List Nat)) (rawSend : List Nat → Int)
      (decryptMessage : List Nat → Option (List (Bool × List Nat)))
      (cap : Nat) (raw : RawIn) (data : List Nat),
      TlsSocket.handshake_complete (TlsSocket.close s) = false
      ∧ (TlsSocket.close s).sockOpen = false
      ∧ (TlsSocket.close s).shutdownTokens
          = s.shutdownTokens + (if s.handshake_done then 1 else 0)
      ∧ (TlsSocket.close (TlsSocket.close s)).shutdownTokens
          = (TlsSocket.close s).shutdownTokens
      ∧ TlsSocket.send (TlsSocket.handshake_complete (TlsSocket.close s)) sz
          encryptMessage rawSend data = (-1, none)
      ∧ TlsSocket.recv (TlsSocket.handshake_complete (TlsSocket.close s))
          decryptMessage cap raw = ⟨-1, 0, []⟩ := by
  intro s sz encryptMessage rawSend decryptMessage cap raw data
  have hdone : TlsSocket.handshake_complete (TlsSocket.close s) = false := by
    by_cases h : s.handshake_done <;>
      simp [TlsSocket.close, TlsSocket.handshake_complete, h]
  refine ⟨hdone, ?_, ?_, ?_, ?_, ?_⟩
  · by_cases h : s.handshake_done <;> simp [TlsSocket.close, h]
  · by_cases h : s.handshake_done <;> simp [TlsSocket.close, h]
  · by_cases h : s.handshake_done <;>
      simp [TlsSocket.close, TlsSocket.handshake_complete, h]
  · rw [hdone]; rfl
  · rw [hdone]; rfl

end Etherz
